import Mathlib

/-!
Verification of the LSPosed dex2oat wrapper core: the key-value-store spoofing
engine (`oat_hook.cpp`), the OAT header accessors (`oat.cpp`) and the launcher
(`dex2oat.cpp`), shallowly embedded over lists of bytes.

Memory is modelled as a `List Nat` of byte values; a raw `(pointer, size)` pair
becomes the list together with an explicit `size_limit` index.  Reads use
`memGetD`, which returns 0 beyond the modelled region.
-/

set_option maxHeartbeats 1000000
set_option maxRecDepth 10000

/-- Byte list of a string literal (each char to its code point; all strings
used here are ASCII, so this is the byte sequence of the C string). -/
def strBytes (s : String) : List Nat := s.toList.map Char.toNat

/-- `kParamToRemove` from oat_hook.cpp: the injected flag token. -/
def kParamToRemove : List Nat := strBytes "--inline-max-code-units=0"

/-- Modelled from the spec: `art::OatHeader::kDex2OatCmdLineKey` is declared in
the repository's `oat.h`, which is not among the provided sources.  The spec
names the well-known target key `"dex2oat-cmdline"`. -/
def kDex2OatCmdLineKey : List Nat := strBytes "dex2oat-cmdline"

/-- Modelled from the spec: `art::OatHeader::kNonDeterministicFieldsAndLengths`
is declared in the repository's `oat.h`, which is not among the provided
sources.  The spec identifies the `dex2oat-cmdline` entry as the
variable-length (padded) field this engine targets, so the modelled list of
non-deterministic field names contains exactly that key. -/
def kNonDeterministicFields : List (List Nat) := [strBytes "dex2oat-cmdline"]

/-- `IsNonDeterministic` from oat_hook.cpp: whether a key names a header field
that may have variable length (`std::any_of` over the field list). -/
def IsNonDeterministic (key : List Nat) : Bool :=
  kNonDeterministicFields.any (fun k => k == key)

/-- Read a byte of modelled memory; indices past the modelled region read 0. -/
def memGetD (mem : List Nat) (i : Nat) : Nat := mem.getD i 0

/-- The byte range `[a, b)` of modelled memory. -/
def byteSlice (mem : List Nat) (a b : Nat) : List Nat := (mem.drop a).take (b - a)

/-- `memchr(ptr, 0, len)`: index of the first zero byte in `[start, stop)`,
`none` if there is none (the C call returns NULL). -/
def memchr0 (mem : List Nat) (start stop : Nat) : Option Nat :=
  go (stop - start) start
where
  go : Nat → Nat → Option Nat
    | 0, _ => none
    | n + 1, i => if memGetD mem i = 0 then some i else go n (i + 1)

/-- `while (*ptr == '\0') ptr++;` from oat_hook.cpp (padding skip): the first
index `≥ i` holding a nonzero byte.  The C loop has no upper bound at all; the
model stops at the end of the modelled memory (which extends past the declared
`size_limit`, mirroring that the store sits inside a larger header). -/
def skipZeros (mem : List Nat) (i : Nat) : Nat :=
  go (mem.length - i) i
where
  go : Nat → Nat → Nat
    | 0, j => j
    | n + 1, j => if memGetD mem j = 0 then go n (j + 1) else j

/-- Overwrite the bytes of `mem` starting at `pos` with `bytes`
(the effect of `memcpy(base + pos, bytes, len)`). -/
def writeAt (mem : List Nat) (pos : Nat) (bytes : List Nat) : List Nat :=
  mem.take pos ++ bytes ++ mem.drop (pos + bytes.length)

/-- Boolean prefix test on byte lists. -/
def isPrefixB : List Nat → List Nat → Bool
  | [], _ => true
  | _ :: _, [] => false
  | a :: as, b :: bs => a == b && isPrefixB as bs

/-- `haystack.find(needle) != npos`: `needle` occurs as a contiguous substring
of `hay`. -/
def hasSub (needle hay : List Nat) : Bool :=
  match hay with
  | [] => isPrefixB needle []
  | _ :: t => isPrefixB needle hay || hasSub needle t

/-- Strict lexicographic order on byte lists: the `std::string` `operator<`
ordering used by `std::map<std::string, std::string>`. -/
def ltBytes : List Nat → List Nat → Bool
  | [], [] => false
  | [], _ :: _ => true
  | _ :: _, [] => false
  | a :: as, b :: bs => if a < b then true else if b < a then false else ltBytes as bs

/-- `map[key] = value` on a `std::map` modelled as a key-sorted association
list: insert at the sorted position, overwriting an equal key. -/
def mapInsert (k v : List Nat) : List (List Nat × List Nat) → List (List Nat × List Nat)
  | [] => [(k, v)]
  | (k', v') :: rest =>
    if ltBytes k k' then (k, v) :: (k', v') :: rest
    else if ltBytes k' k then (k', v') :: mapInsert k v rest
    else (k', v) :: rest

/-- The token split of `process_cmd` (oat_hook.cpp lines 36-47): split on
spaces, dropping empty pieces. -/
def splitAux : List Nat → List Nat → List (List Nat)
  | [], current => if current.isEmpty then [] else [current]
  | c :: rest, current =>
    if c = 32 then
      if current.isEmpty then splitAux rest []
      else current :: splitAux rest []
    else splitAux rest (current ++ [c])

/-- Tokenize a command line on spaces (oat_hook.cpp `process_cmd`, step 0). -/
def splitTokens (sv : List Nat) : List (List Nat) := splitAux sv []

/-- Rejoin tokens with single spaces (oat_hook.cpp `process_cmd`, step 3). -/
def joinSpace : List (List Nat) → List Nat
  | [] => []
  | [t] => t
  | t :: ts => t ++ 32 :: joinSpace ts

/-- `process_cmd` from oat_hook.cpp: split the command line on spaces, replace
the first token with `new_cmd_path`, remove every token equal to
`kParamToRemove`, and rejoin with single spaces. -/
def process_cmd (sv new_cmd_path : List Nat) : List Nat :=
  let tokens := splitTokens sv
  let tokens :=
    match tokens with
    | [] => []
    | _ :: rest => new_cmd_path :: rest
  let tokens := tokens.filter (fun t => !(t == kParamToRemove))
  joinSpace tokens

/-- `WriteKeyValueStore` from oat_hook.cpp serializes the map back into the
buffer at the base pointer; this definition is the byte sequence it writes
(`key, 0, value, 0` for each entry in map order).  The memory effect of the
C function is `writeAt mem 0 (WriteKeyValueStore kvs)`. -/
def WriteKeyValueStore (kvs : List (List Nat × List Nat)) : List Nat :=
  kvs.foldr (fun p acc => p.1 ++ 0 :: p.2 ++ 0 :: acc) []

/-- One step of the parse loop of `SpoofKeyValueStore` (oat_hook.cpp lines
105-156): either the loop stops (cursor at the declared end, a zero byte at the
key position, or a missing terminator), or it isolates one `key`/`value` entry,
notes the in-place padding signature, and yields the next cursor position
(after skipping the padding run when the signature is present). -/
inductive ScanRes where
  | stop : ScanRes
  | entry (key value : List Nat) (vstart : Nat) (hasPad : Bool) (next : Nat) : ScanRes
deriving DecidableEq

def scanStep (mem : List Nat) (limit ptr : Nat) : ScanRes :=
  if ptr < limit ∧ memGetD mem ptr ≠ 0 then
    match memchr0 mem ptr limit with
    | none => ScanRes.stop
    | some key_end =>
      let value_start := key_end + 1
      if limit ≤ value_start then ScanRes.stop
      else
        match memchr0 mem value_start limit with
        | none => ScanRes.stop
        | some value_end =>
          let key := byteSlice mem ptr key_end
          let value := byteSlice mem value_start value_end
          let hasPad := decide (value_end + 1 < limit) && (memGetD mem (value_end + 1) == 0)
            && IsNonDeterministic key
          ScanRes.entry key value value_start hasPad
            (if hasPad then skipZeros mem (value_end + 1) else value_end + 1)
  else ScanRes.stop

/-- What `SpoofKeyValueStore` did to the buffer: an in-place edit of the value
span `[vstart, vstart+cap)`, a full rebuild serializing `serial` at the base,
or nothing. -/
inductive SpoofKind where
  | inPlace (vstart cap : Nat) : SpoofKind
  | rebuilt (serial : List Nat) : SpoofKind
  | noChange : SpoofKind
deriving DecidableEq

structure SpoofOut where
  mem : List Nat
  ret : Bool
  kind : SpoofKind
deriving DecidableEq

/-- The code after the parse loop of `SpoofKeyValueStore` (oat_hook.cpp lines
158-162): if the target entry was found without padding, re-serialize the
rebuilt map into the buffer and return true, else return false untouched. -/
def spoofFinish (mem : List Nat) (store : List (List Nat × List Nat)) (modified : Bool) :
    SpoofOut :=
  if modified then
    let serial := WriteKeyValueStore store
    ⟨writeAt mem 0 serial, true, SpoofKind.rebuilt serial⟩
  else ⟨mem, false, SpoofKind.noChange⟩

/-- The parse loop of `SpoofKeyValueStore` (oat_hook.cpp lines 105-156).  Fuel
bounds the iteration count; the cursor advances by at least 3 per entry, so
`size_limit + 1` fuel (used by `SpoofKeyValueStore`) never runs out before the
C loop would exit. -/
def spoofLoop (g mem : List Nat) (limit : Nat) :
    Nat → Nat → List (List Nat × List Nat) → Bool → SpoofOut
  | 0, _, store, modified => spoofFinish mem store modified
  | fuel + 1, ptr, store, modified =>
    match scanStep mem limit ptr with
    | ScanRes.stop => spoofFinish mem store modified
    | ScanRes.entry key value vstart hasPad next =>
      if key == kDex2OatCmdLineKey && hasSub kParamToRemove value then
        if hasPad then
          ⟨writeAt mem vstart
              ((process_cmd value g).take value.length ++
                List.replicate (value.length - (process_cmd value g).length) 0),
            true, SpoofKind.inPlace vstart value.length⟩
        else spoofLoop g mem limit fuel next (mapInsert key (process_cmd value g) store) true
      else spoofLoop g mem limit fuel next (mapInsert key value store) modified

/-- `SpoofKeyValueStore` from oat_hook.cpp: parse the store at the base
pointer, spoof the `dex2oat-cmdline` entry (in place when the padding
signature allows, otherwise by rebuilding the whole record), with `g` the
global `g_binary_path`. -/
def SpoofKeyValueStore (g mem : List Nat) (size_limit : Nat) : SpoofOut :=
  spoofLoop g mem size_limit (size_limit + 1) 0 [] false

/-- The pure observation of the same parse loop: the `(key, value)` entries the
scan of `SpoofKeyValueStore` visits, in buffer order. -/
def parseLoop (mem : List Nat) (limit : Nat) : Nat → Nat → List (List Nat × List Nat)
  | 0, _ => []
  | fuel + 1, ptr =>
    match scanStep mem limit ptr with
    | ScanRes.stop => []
    | ScanRes.entry key value _ _ next => (key, value) :: parseLoop mem limit fuel next

def parseEntries (mem : List Nat) (limit : Nat) : List (List Nat × List Nat) :=
  parseLoop mem limit (limit + 1) 0

/-- The value an entry carries after spoofing: the sanitized command line for
the target entry, the original value otherwise. -/
def transformEntry (g k v : List Nat) : List Nat :=
  if k == kDex2OatCmdLineKey && hasSub kParamToRemove v then process_cmd v g else v

/-- The map the rebuild path of `SpoofKeyValueStore` accumulates: every parsed
entry inserted into a key-sorted map, the target value sanitized. -/
def rebuildStore (g mem : List Nat) (limit : Nat) : List (List Nat × List Nat) :=
  (parseEntries mem limit).foldl (fun st p => mapInsert p.1 (transformEntry g p.1 p.2) st) []

/-! ## OAT header model (oat.cpp) and the hook entry points (oat_hook.cpp) -/

/-- The `art::OatHeader` fields this core touches (oat.cpp accesses them at
fixed offsets): the key-value store bytes and the separately stored 32-bit
`StoreSize` field. -/
structure OatHeaderModel where
  kvStore : List Nat
  kvStoreSize : Nat
deriving DecidableEq

/-- `art::OatHeader::getKeyValueStoreSize` from oat.cpp. -/
def getKeyValueStoreSize (h : OatHeaderModel) : Nat := h.kvStoreSize

/-- `art::OatHeader::getKeyValueStore` from oat.cpp. -/
def getKeyValueStore (h : OatHeaderModel) : List Nat := h.kvStore

/-- `art::OatHeader::setKeyValueStoreSize` from oat.cpp. -/
def setKeyValueStoreSize (h : OatHeaderModel) (new_size : Nat) : OatHeaderModel :=
  { h with kvStoreSize := new_size }

/-- A call of `SpoofKeyValueStore(store, size)` on a header: oat_hook.cpp
passes the store pointer and the current `StoreSize` and never calls
`setKeyValueStoreSize`, so only the store bytes can change. -/
def applySpoof (g : List Nat) (h : OatHeaderModel) : OatHeaderModel × Bool :=
  let out := SpoofKeyValueStore g h.kvStore h.kvStoreSize
  ({ h with kvStore := out.mem }, out.ret)

/-- The hooked `OatHeader::GetKeyValueStore` (oat_hook.cpp lines 176-186):
fetch the real pointer and size from the original accessors, spoof only when
`0 < size < 64 * 1024`, and return the original pointer unchanged.  `addr`
stands for the raw pointer value the original accessor returned. -/
def new_GetKeyValueStore (g : List Nat) (addr : Nat) (h : OatHeaderModel) :
    Nat × OatHeaderModel :=
  if 0 < h.kvStoreSize ∧ h.kvStoreSize < 64 * 1024 then
    (addr, { h with kvStore := (SpoofKeyValueStore g h.kvStore h.kvStoreSize).mem })
  else (addr, h)

/-- The hooked `OatHeader::ComputeChecksum` (oat_hook.cpp lines 189-202):
spoof unconditionally (no size bound), then delegate to the original checksum
routine, which therefore hashes the modified store bytes; `chk` abstracts the
original routine as a function of those bytes. -/
def new_ComputeChecksum (chk : List Nat → Nat) (g : List Nat) (h : OatHeaderModel) :
    OatHeaderModel × Nat :=
  let h' := { h with kvStore := (SpoofKeyValueStore g h.kvStore h.kvStoreSize).mem }
  (h', chk h'.kvStore)

/-! ## Hook installation (oat_hook.cpp constructor) -/

/-- One entry of `lsplt::MapInfo::Scan()`. -/
structure MapInfo where
  path : List Nat
  dev : Nat
  inode : Nat
deriving DecidableEq

/-- The externally visible operations the constructor performs on lsplt. -/
inductive HookAction where
  | register (sym : String) : HookAction
  | commit : HookAction
deriving DecidableEq

def sizeSym : String := "_ZNK3art9OatHeader20GetKeyValueStoreSizeEv"
def dataSym : String := "_ZNK3art9OatHeader16GetKeyValueStoreEv"
def checksumSym : String := "_ZNK3art9OatHeader15ComputeChecksumEPj"

/-- The mapping scan of the constructor (oat_hook.cpp lines 229-238): the
first mapping whose path contains `"bin/dex2oat"`. -/
def findTarget : List MapInfo → Option MapInfo
  | [] => none
  | info :: rest =>
    if hasSub (strBytes "bin/dex2oat") info.path then some info else findTarget rest

/-- The outcome of running the library constructor. -/
structure InitResult where
  gpath : List Nat
  actions : List HookAction
  located : Bool
deriving DecidableEq

/-- The library constructor `initialize` of oat_hook.cpp: read the
`DEX2OAT_CMD` override, locate the dex2oat mapping (filling `g_binary_path`
from it if still empty), bail out if none was found (`dev == 0`), else
register the size/data accessor pair and commit; only if that commit fails,
register the checksum hook and commit again.  `commitFirst` is the boolean
result of the first `lsplt::CommitHook()` call. -/
def setupHooks (env : Option (List Nat)) (maps : List MapInfo) (commitFirst : Bool) :
    InitResult :=
  let g0 := env.getD []
  let found := findTarget maps
  let g1 :=
    match found with
    | some info => if g0.isEmpty then info.path else g0
    | none => g0
  let dev := match found with | some info => info.dev | none => 0
  if dev = 0 then { gpath := g1, actions := [], located := false }
  else
    let base := [HookAction.register sizeSym, HookAction.register dataSym, HookAction.commit]
    { gpath := g1,
      actions :=
        if commitFirst then base
        else base ++ [HookAction.register checksumSym, HookAction.commit],
      located := true }

/-! ## Launcher (dex2oat.cpp) -/

/-- The fields of a received `cmsghdr` the launcher inspects. -/
structure CMsg where
  cmsgLen : Nat
  cmsgLevel : Nat
  cmsgType : Nat
  data : Int
deriving DecidableEq

/-- What one `recvmsg` call produced: the updated `msg_controllen` and the
first control message, if any. -/
structure MsgResult where
  controllen : Nat
  cmsg : Option CMsg
deriving DecidableEq

/-- `SOL_SOCKET` (Linux). -/
def kSolSocket : Nat := 1
/-- `SCM_RIGHTS` (Linux). -/
def kScmRights : Nat := 1
/-- `CMSG_LEN(sizeof(int))` on LP64 Linux. -/
def kCmsgLenInt : Nat := 20
/-- `CMSG_SPACE(sizeof(int))` on LP64 Linux: the `cmsgbuf` size of `recv_fd`. -/
def kCmsgSpace : Nat := 24

/-- `recv_fds` from dex2oat.cpp with `cnt = 1`: return the descriptor payload
only when the control message has exactly the shape of a single-descriptor
`SCM_RIGHTS` message, `NULL` (`none`) otherwise. -/
def recv_fds (m : MsgResult) : Option Int :=
  match m.cmsg with
  | none => none
  | some c =>
    if m.controllen ≠ kCmsgSpace ∨ c.cmsgLen ≠ kCmsgLenInt ∨
        c.cmsgLevel ≠ kSolSocket ∨ c.cmsgType ≠ kScmRights then none
    else some c.data

/-- `recv_fd` from dex2oat.cpp: `-1` when `recv_fds` yields no descriptor. -/
def recv_fd (m : MsgResult) : Int :=
  match recv_fds m with
  | none => -1
  | some d => d

/-- The claim's notion of a malformed handshake message: wrong overall
control length, no control message at all, or a control message whose length,
level or type differs from a single-descriptor `SCM_RIGHTS` payload. -/
def badCMsg (m : MsgResult) : Prop :=
  m.controllen ≠ kCmsgSpace ∨ m.cmsg = none ∨
    ∃ c, m.cmsg = some c ∧
      (c.cmsgLen ≠ kCmsgLenInt ∨ c.cmsgLevel ≠ kSolSocket ∨ c.cmsgType ≠ kScmRights)

/-- The I/O environment `main` of dex2oat.cpp runs against: whether each
`connect` succeeds, what each descriptor handshake delivers, and whether the
final `execve` succeeds. -/
structure LaunchEnv where
  connect1 : Bool
  msg1 : MsgResult
  connect2 : Bool
  msg2 : MsgResult
  execveOk : Bool

/-- How `main` ends: `exitCode n` is `return n`; `execed stock hooker` is the
successful `execve` through the linker, recording the compiler-binary
descriptor used in `/proc/self/fd/<stock>` and the hook-library descriptor
used in `LD_PRELOAD=/proc/<pid>/fd/<hooker>`. -/
inductive MainOutcome where
  | exitCode (n : Nat) : MainOutcome
  | execed (stock hooker : Int) : MainOutcome
deriving DecidableEq

/-- `main` from dex2oat.cpp: first connect failure returns 1; the first
descriptor is received without any check of its value; second connect failure
returns 1; a missing hook descriptor is only logged; then the launcher execs
the linker (returning 2 only if `execve` itself fails). -/
def dex2oatMain (e : LaunchEnv) : MainOutcome :=
  if e.connect1 = false then MainOutcome.exitCode 1
  else
    let stock := recv_fd e.msg1
    if e.connect2 = false then MainOutcome.exitCode 1
    else
      let hooker := recv_fd e.msg2
      if e.execveOk then MainOutcome.execed stock hooker
      else MainOutcome.exitCode 2

/-! ## Concrete inputs used by counterexamples and witnesses -/

def gPathX : List Nat := strBytes "/x"

def gPathArt : List Nat := strBytes "/apex/com.android.art/bin/dex2oat64"

/-- The spec's scenario command line: linker path, fd path, a user flag, and
the injected token. -/
def cmdScenario : List Nat :=
  strBytes "/apex/com.android.runtime/bin/linker64 /proc/self/fd/7 --foo --inline-max-code-units=0"

/-- A two-entry record holding the scenario command line with the in-place
padding signature (a double NUL after the target value). -/
def memScenario : List Nat :=
  strBytes "compiler-filter" ++ [0] ++ strBytes "speed" ++ [0] ++
    strBytes "dex2oat-cmdline" ++ [0] ++ cmdScenario ++ [0, 0]

/-- The scenario record after spoofing: same layout, the target value
rewritten in place (sanitized command followed by zero padding). -/
def memScenarioSpoofed : List Nat :=
  strBytes "compiler-filter" ++ [0] ++ strBytes "speed" ++ [0] ++
    strBytes "dex2oat-cmdline" ++ [0] ++
    strBytes "/apex/com.android.art/bin/dex2oat64 /proc/self/fd/7 --foo" ++
    List.replicate 29 0 ++ [0, 0]

/-- A one-entry record with no padding signature (record fills the declared
44 bytes exactly), with 3 bytes of adjacent memory modelled past the bound. -/
def memRebuildOne : List Nat :=
  strBytes "dex2oat-cmdline" ++ [0] ++ strBytes "A --inline-max-code-units=0" ++ [0] ++ [7, 7, 7]

/-- A two-entry record whose rebuild shrinks it, leaving stale bytes between
the rebuilt record's end and the stale declared size. -/
def memRoundTrip : List Nat :=
  strBytes "dex2oat-cmdline" ++ [0] ++ strBytes "A --inline-max-code-units=0" ++ [0] ++
    strBytes "z" ++ [0] ++ strBytes "w" ++ [0]

/-- A record of declared size 44 whose rebuild with `gPathArt` serializes to
52 bytes: the write tramples the 8 marker bytes placed past the bound. -/
def memOverrun : List Nat :=
  strBytes "dex2oat-cmdline" ++ [0] ++ strBytes "A --inline-max-code-units=0" ++ [0] ++
    List.replicate 8 7

/-- A padded one-entry record (double NUL after the value): in-place path. -/
def memPadded : List Nat :=
  strBytes "dex2oat-cmdline" ++ [0] ++ strBytes "a --inline-max-code-units=0 b" ++ [0, 0, 0]

/-- A record without the target key anywhere. -/
def memPlain : List Nat := strBytes "hello" ++ [0] ++ strBytes "world" ++ [0]

/-- A control message of exactly the single-descriptor `SCM_RIGHTS` shape. -/
def goodMsg (fd : Int) : MsgResult :=
  { controllen := kCmsgSpace,
    cmsg := some { cmsgLen := kCmsgLenInt, cmsgLevel := kSolSocket, cmsgType := kScmRights,
                   data := fd } }

/-- A control message with the wrong `cmsg_len`. -/
def badLenMsg : MsgResult :=
  { controllen := kCmsgSpace,
    cmsg := some { cmsgLen := 0, cmsgLevel := kSolSocket, cmsgType := kScmRights, data := 5 } }

/-- Both connects succeed, the first handshake delivers a malformed control
message, the second delivers descriptor 7, and `execve` succeeds. -/
def envBadFirstRecv : LaunchEnv :=
  { connect1 := true, msg1 := badLenMsg, connect2 := true, msg2 := goodMsg 7, execveOk := true }

/-- The second `connect` fails while everything else would succeed. -/
def envSecondConnectFail : LaunchEnv :=
  { connect1 := true, msg1 := goodMsg 3, connect2 := false, msg2 := goodMsg 7, execveOk := true }

/-- The first `connect` fails. -/
def envFirstConnectFail : LaunchEnv :=
  { connect1 := false, msg1 := goodMsg 3, connect2 := true, msg2 := goodMsg 7, execveOk := true }

/-- Both connects succeed, the second handshake delivers a malformed control
message, the first delivers descriptor 3, and `execve` succeeds. -/
def envBadSecondRecv : LaunchEnv :=
  { connect1 := true, msg1 := goodMsg 3, connect2 := true, msg2 := badLenMsg, execveOk := true }

def mapOther : MapInfo :=
  { path := strBytes "/system/lib64/libc.so", dev := 3, inode := 9 }

def mapDex : MapInfo :=
  { path := strBytes "/apex/com.android.art/bin/dex2oat64", dev := 5, inode := 42 }

/-- The serialization the rebuild of `memRebuildOne` with `gPathX` writes. -/
def serialRebuildOne : List Nat := strBytes "dex2oat-cmdline" ++ [0] ++ strBytes "/x" ++ [0]

/-- The serialization the rebuild of `memRoundTrip` with `gPathX` writes. -/
def serialRoundTrip : List Nat :=
  strBytes "dex2oat-cmdline" ++ [0] ++ strBytes "/x" ++ [0] ++
    strBytes "z" ++ [0] ++ strBytes "w" ++ [0]

/-- Well-formedness of a key-value map for serialization round-trips: keys are
nonempty, and keys and values contain no NUL byte. -/
def WFStore (m : List (List Nat × List Nat)) : Prop :=
  ∀ p ∈ m, p.1 ≠ [] ∧ 0 ∉ p.1 ∧ 0 ∉ p.2

/-! ## C10: hook dispatch -/

/-- C10: the data-accessor hook always returns exactly the pointer obtained
from the original accessor; it spoofs the store only when the reported size is
strictly between 0 and 64 KiB (leaving the header untouched otherwise), while
the checksum hook spoofs for every reported size. -/
theorem hook_dispatch_bounds (g : List Nat) (addr : Nat) (h : OatHeaderModel) :
    (new_GetKeyValueStore g addr h).1 = addr ∧
    (0 < h.kvStoreSize ∧ h.kvStoreSize < 64 * 1024 →
      (new_GetKeyValueStore g addr h).2.kvStore =
        (SpoofKeyValueStore g h.kvStore h.kvStoreSize).mem) ∧
    (¬(0 < h.kvStoreSize ∧ h.kvStoreSize < 64 * 1024) →
      (new_GetKeyValueStore g addr h).2 = h) ∧
    ∀ chk, (new_ComputeChecksum chk g h).1.kvStore =
      (SpoofKeyValueStore g h.kvStore h.kvStoreSize).mem := by
  refine ⟨?_, ?_, ?_, ?_⟩
  · unfold new_GetKeyValueStore
    split <;> rfl
  · intro hb
    unfold new_GetKeyValueStore
    split
    · rfl
    · exact absurd hb (by assumption)
  · intro hb
    unfold new_GetKeyValueStore
    split
    · exact absurd (by assumption) hb
    · rfl
  · intro chk
    rfl

theorem hook_dispatch_bounds_witness :
    (new_GetKeyValueStore gPathX 77 ⟨memPlain, 12⟩).1 = 77 ∧
    (new_GetKeyValueStore gPathX 77 ⟨memPlain, 65536⟩).2 = ⟨memPlain, 65536⟩ := by
  refine ⟨(hook_dispatch_bounds gPathX 77 ⟨memPlain, 12⟩).1, ?_⟩
  exact (hook_dispatch_bounds gPathX 77 ⟨memPlain, 65536⟩).2.2.1 (by decide)

/-! ## C9: hook installation dispatch -/

/-- C9: the constructor always registers the size-accessor and data-accessor
hooks and commits; only when that commit fails does it additionally register
the checksum hook and commit a second time; and when no mapping matching
`bin/dex2oat` exists it performs no registration at all. -/
theorem hook_install_dispatch (env : Option (List Nat)) (maps : List MapInfo)
    (commitFirst : Bool) :
    (findTarget maps = none →
      (setupHooks env maps commitFirst).actions = [] ∧
      (setupHooks env maps commitFirst).located = false) ∧
    (∀ info, findTarget maps = some info → info.dev ≠ 0 →
      (setupHooks env maps commitFirst).actions =
        (if commitFirst then
          [HookAction.register sizeSym, HookAction.register dataSym, HookAction.commit]
        else
          [HookAction.register sizeSym, HookAction.register dataSym, HookAction.commit,
            HookAction.register checksumSym, HookAction.commit]) ∧
      (setupHooks env maps commitFirst).located = true) := by
  constructor
  · intro hnone
    unfold setupHooks
    rw [hnone]
    simp
  · intro info hsome hdev
    unfold setupHooks
    rw [hsome]
    simp only [hdev, if_neg hdev]
    cases commitFirst <;> simp

theorem hook_install_dispatch_witness :
    (setupHooks none [mapOther] true).actions = [] ∧
    (setupHooks none [mapOther, mapDex] false).actions =
      [HookAction.register sizeSym, HookAction.register dataSym, HookAction.commit,
        HookAction.register checksumSym, HookAction.commit] := by
  constructor
  · exact ((hook_install_dispatch none [mapOther] true).1 rfl).1
  · have h := (hook_install_dispatch none [mapOther, mapDex] false).2 mapDex (by decide)
      (by decide)
    simpa using h.1

/-! ## C5: launcher transport-error fatality -/

/-- C5 (amended): a first-connect failure exits with status 1; a
second-connect failure is equally fatal with the same status 1 (contrary to
the claim that any second-handshake failure is non-fatal); only a failed
descriptor receive on the second handshake is non-fatal, proceeding to the
re-exec with hook descriptor -1 (interception disabled). -/
theorem launcher_fatality_split (e : LaunchEnv) :
    (e.connect1 = false → dex2oatMain e = MainOutcome.exitCode 1) ∧
    (e.connect1 = true → e.connect2 = false → dex2oatMain e = MainOutcome.exitCode 1) ∧
    (e.connect1 = true → e.connect2 = true → recv_fds e.msg2 = none → e.execveOk = true →
      dex2oatMain e = MainOutcome.execed (recv_fd e.msg1) (-1)) := by
  refine ⟨?_, ?_, ?_⟩
  · intro h1
    unfold dex2oatMain
    rw [h1]
    rfl
  · intro h1 h2
    unfold dex2oatMain
    rw [h1, h2]
    rfl
  · intro h1 h2 hrecv hexec
    unfold dex2oatMain
    rw [h1, h2, hexec]
    simp [recv_fd, hrecv]

/-- C5: on a concrete environment where the second `connect` fails, the
launcher exits with status 1 instead of proceeding to the re-exec, refuting
that every failure of the second (hook-library) handshake is non-fatal. -/
theorem launcher_second_connect_fatal :
    dex2oatMain envSecondConnectFail = MainOutcome.exitCode 1 := by decide

theorem launcher_fatality_split_witness :
    dex2oatMain envFirstConnectFail = MainOutcome.exitCode 1 ∧
    dex2oatMain envBadSecondRecv = MainOutcome.execed 3 (-1) := by
  constructor
  · exact (launcher_fatality_split envFirstConnectFail).1 rfl
  · have h := (launcher_fatality_split envBadSecondRecv).2.2 rfl rfl (by decide) rfl
    simpa [recv_fd, recv_fds, goodMsg, envBadSecondRecv] using h

/-! ## C4: malformed control message -/

/-- C4: on a concrete run where both connects succeed but the first control
message has the wrong `cmsg_len`, the launcher does not exit with a non-zero
status: it proceeds to the re-exec using the invalid descriptor -1, refuting
the claimed exit. -/
theorem launcher_no_exit_on_bad_cmsg :
    dex2oatMain envBadFirstRecv = MainOutcome.execed (-1) 7 := by decide

/-- C4 (amended): a received control message of the wrong length, level or
type makes `recv_fd` yield -1 (no descriptor), but the launcher does not exit:
with both connects succeeding and `execve` succeeding it re-execs with the
uninitialized descriptor value -1 in the `/proc/self/fd` path. -/
theorem recv_mismatch_no_descriptor (e : LaunchEnv)
    (h1 : e.connect1 = true) (h2 : e.connect2 = true)
    (hbad : badCMsg e.msg1) (hexec : e.execveOk = true) :
    recv_fd e.msg1 = -1 ∧
    dex2oatMain e = MainOutcome.execed (-1) (recv_fd e.msg2) := by
  have hrnone : recv_fds e.msg1 = none := by
    unfold recv_fds badCMsg at *
    rcases hbad with hlen | hnone | ⟨c, hc, hbad⟩
    · cases hm : e.msg1.cmsg with
      | none => simp
      | some c => simp [hm, hlen]
    · simp [hnone]
    · rcases hbad with h | h | h <;> simp [hc, h]
  have hfd : recv_fd e.msg1 = -1 := by
    unfold recv_fd
    rw [hrnone]
  refine ⟨hfd, ?_⟩
  unfold dex2oatMain
  rw [h1, h2, hexec, hfd]
  rfl

theorem recv_mismatch_no_descriptor_witness :
    recv_fd envBadFirstRecv.msg1 = -1 ∧
    dex2oatMain envBadFirstRecv = MainOutcome.execed (-1) (recv_fd envBadFirstRecv.msg2) := by
  exact recv_mismatch_no_descriptor envBadFirstRecv rfl rfl
    (Or.inr (Or.inr ⟨_, rfl, Or.inl (by decide)⟩)) rfl

/-! ## C2: the spec scenario -/

/-- C2: on the spec's scenario command line with the original path
`/apex/com.android.art/bin/dex2oat64`, `process_cmd` yields
`".../dex2oat64 /proc/self/fd/7 --foo"`, not the claimed
`".../dex2oat64 --foo"`: the `/proc/self/fd/7` token survives, refuting the
claimed spoofed value. -/
theorem process_cmd_scenario_mismatch :
    process_cmd cmdScenario gPathArt ≠
      strBytes "/apex/com.android.art/bin/dex2oat64 --foo" := by decide

/-- C2 (amended): on the scenario record the spoofed value is the sanitized
command line with the first token replaced and the injected token (with its
separating space) removed but the `/proc/self/fd/7` token retained; the
unrelated `compiler-filter` entry's bytes are untouched, and the checksum hook
hands the original checksum routine exactly the rewritten bytes. -/
theorem spoof_scenario_value (chk : List Nat → Nat) :
    process_cmd cmdScenario gPathArt =
      strBytes "/apex/com.android.art/bin/dex2oat64 /proc/self/fd/7 --foo" ∧
    (new_ComputeChecksum chk gPathArt ⟨memScenario, 126⟩).1.kvStore = memScenarioSpoofed ∧
    (new_ComputeChecksum chk gPathArt ⟨memScenario, 126⟩).2 = chk memScenarioSpoofed ∧
    parseEntries memScenarioSpoofed 126 =
      [(strBytes "compiler-filter", strBytes "speed"),
        (kDex2OatCmdLineKey,
          strBytes "/apex/com.android.art/bin/dex2oat64 /proc/self/fd/7 --foo")] ∧
    byteSlice memScenarioSpoofed 0 22 = byteSlice memScenario 0 22 := by
  have hmem : (SpoofKeyValueStore gPathArt memScenario 126).mem = memScenarioSpoofed := by
    decide
  refine ⟨by decide, hmem, ?_, by decide, by decide⟩
  show chk (SpoofKeyValueStore gPathArt memScenario 126).mem = chk memScenarioSpoofed
  exact congrArg chk hmem

theorem spoof_scenario_value_witness :
    (new_ComputeChecksum List.sum gPathArt ⟨memScenario, 126⟩).2 =
      List.sum memScenarioSpoofed :=
  (spoof_scenario_value List.sum).2.2.1

/-! ## C1: rebuild and the StoreSize field -/

/-- C1: on a concrete record taken through the rebuild path, the spoof
reports success but the header's `StoreSize` stays 44: the code never calls
`setKeyValueStoreSize`, so the claimed update to `44 - 25` (old size minus the
removed token's byte length) does not happen. -/
theorem spoof_rebuild_storeSize_stale :
    (applySpoof gPathX ⟨memRebuildOne, 44⟩).2 = true ∧
    (applySpoof gPathX ⟨memRebuildOne, 44⟩).1.kvStoreSize = 44 ∧
    (applySpoof gPathX ⟨memRebuildOne, 44⟩).1.kvStoreSize ≠
      44 - kParamToRemove.length := by decide

/-! ## C3: the rebuild write is not bounds-checked -/

/-- C3: a record whose sanitized rebuild serializes to 52 bytes against a
declared size of 44 makes `WriteKeyValueStore` overwrite the marker byte that
sits at offset 44, i.e. at `base + StoreSize`: the engine writes past the
declared bound, contradicting the claimed safety property (the code has no
size check before re-serializing). -/
theorem spoof_rebuild_overruns_bound :
    memOverrun.getD 44 0 = 7 ∧
    (SpoofKeyValueStore gPathArt memOverrun 44).ret = true ∧
    (SpoofKeyValueStore gPathArt memOverrun 44).mem.getD 44 0 = 120 := by decide

/-! ## List-index helper lemmas -/

theorem getD_append_left (l₁ l₂ : List Nat) (i : Nat) (h : i < l₁.length) :
    (l₁ ++ l₂).getD i 0 = l₁.getD i 0 := by
  induction l₁ generalizing i with
  | nil => simp at h
  | cons a t ih =>
    cases i with
    | zero => simp
    | succ n =>
      simp only [List.cons_append, List.getD_cons_succ]
      exact ih n (by simpa using h)

theorem getD_append_right (l₁ l₂ : List Nat) (i : Nat) (h : l₁.length ≤ i) :
    (l₁ ++ l₂).getD i 0 = l₂.getD (i - l₁.length) 0 := by
  induction l₁ generalizing i with
  | nil => simp
  | cons a t ih =>
    cases i with
    | zero => simp at h
    | succ n =>
      simp only [List.cons_append, List.getD_cons_succ, List.length_cons]
      simpa using ih n (by simpa using h)

theorem getD_take_lt (mem : List Nat) (n i : Nat) (h : i < n) :
    (mem.take n).getD i 0 = mem.getD i 0 := by
  induction mem generalizing n i with
  | nil => simp
  | cons a t ih =>
    cases n with
    | zero => omega
    | succ m =>
      cases i with
      | zero => simp
      | succ j =>
        simp only [List.take_succ_cons, List.getD_cons_succ]
        exact ih m j (by omega)

theorem getD_drop_add (mem : List Nat) (n i : Nat) :
    (mem.drop n).getD i 0 = mem.getD (n + i) 0 := by
  induction mem generalizing n with
  | nil => simp
  | cons a t ih =>
    cases n with
    | zero => simp
    | succ m => simp [Nat.succ_add, ih m]

theorem memGetD_prefix (pre l : List Nat) (j : Nat) :
    memGetD (pre ++ l) (pre.length + j) = memGetD l j := by
  unfold memGetD
  rw [getD_append_right pre l _ (by omega)]
  congr 1
  omega

theorem getD_mem_ne_zero (l : List Nat) (j : Nat) (hj : j < l.length) (h0 : 0 ∉ l) :
    l.getD j 0 ≠ 0 := by
  intro hz
  apply h0
  have : l.getD j 0 ∈ l := by
    rw [List.getD_eq_getElem l 0 hj]
    exact List.getElem_mem hj
  rwa [hz] at this

/-! ## memchr0 and writeAt lemmas -/

theorem memchr0_go_sound (mem : List Nat) :
    ∀ n i r, memchr0.go mem n i = some r →
      i ≤ r ∧ r < i + n ∧ memGetD mem r = 0 := by
  intro n
  induction n with
  | zero => intro i r h; simp [memchr0.go] at h
  | succ m ih =>
    intro i r h
    unfold memchr0.go at h
    by_cases hz : memGetD mem i = 0
    · rw [if_pos hz] at h
      cases h
      exact ⟨Nat.le_refl _, by omega, hz⟩
    · rw [if_neg hz] at h
      obtain ⟨h1, h2, h3⟩ := ih (i + 1) r h
      exact ⟨by omega, by omega, h3⟩

theorem memchr0_sound (mem : List Nat) (start stop r : Nat)
    (h : memchr0 mem start stop = some r) :
    start ≤ r ∧ r < stop ∧ memGetD mem r = 0 := by
  obtain ⟨h1, h2, h3⟩ := memchr0_go_sound mem (stop - start) start r h
  exact ⟨h1, by omega, h3⟩

theorem memchr0_go_first (mem : List Nat) :
    ∀ k n i, k < n → memGetD mem (i + k) = 0 →
      (∀ j, j < k → memGetD mem (i + j) ≠ 0) →
      memchr0.go mem n i = some (i + k) := by
  intro k
  induction k with
  | zero =>
    intro n i hn hz _
    cases n with
    | zero => omega
    | succ m =>
      unfold memchr0.go
      rw [if_pos (by simpa using hz)]
      simp
  | succ p ih =>
    intro n i hn hz hnz
    cases n with
    | zero => omega
    | succ m =>
      unfold memchr0.go
      rw [if_neg (by simpa using hnz 0 (by omega))]
      have := ih m (i + 1) (by omega)
        (by rw [show i + 1 + p = i + (p + 1) by omega]; exact hz)
        (by intro j hj; rw [show i + 1 + j = i + (j + 1) by omega]; exact hnz (j + 1) (by omega))
      rw [this]
      congr 1
      omega

theorem memchr0_first (mem : List Nat) (start stop k : Nat)
    (hlt : start + k < stop) (hz : memGetD mem (start + k) = 0)
    (hnz : ∀ j, j < k → memGetD mem (start + j) ≠ 0) :
    memchr0 mem start stop = some (start + k) :=
  memchr0_go_first mem k (stop - start) start (by omega) hz hnz

theorem takePad_length (c : List Nat) (n : Nat) :
    (c.take n ++ List.replicate (n - c.length) 0).length = n := by
  simp [List.length_take, List.length_replicate]
  omega

theorem writeAt_length (mem : List Nat) (pos : Nat) (bytes : List Nat)
    (h : pos + bytes.length ≤ mem.length) :
    (writeAt mem pos bytes).length = mem.length := by
  simp [writeAt, List.length_take, List.length_drop]
  omega

theorem writeAt_getD_outside (mem : List Nat) (pos : Nat) (bytes : List Nat)
    (h : pos + bytes.length ≤ mem.length) (i : Nat)
    (hi : i < pos ∨ pos + bytes.length ≤ i) :
    (writeAt mem pos bytes).getD i 0 = mem.getD i 0 := by
  have htl : (mem.take pos).length = pos := by
    simp [List.length_take]
    omega
  have htbl : (mem.take pos ++ bytes).length = pos + bytes.length := by
    simp [htl]
  rcases hi with hlt | hge
  · unfold writeAt
    rw [getD_append_left _ _ _ (by rw [htbl]; omega)]
    rw [getD_append_left _ _ _ (by rw [htl]; exact hlt)]
    exact getD_take_lt mem pos i hlt
  · unfold writeAt
    rw [getD_append_right _ _ _ (by rw [htbl]; omega)]
    rw [htbl, getD_drop_add]
    congr 1
    omega

/-! ## scanStep inversion and the in-place path (C6) -/

theorem byteSlice_length_le (mem : List Nat) (a b : Nat) :
    a + (byteSlice mem a b).length ≤ b ∨ (byteSlice mem a b).length ≤ mem.length - a := by
  right
  simp [byteSlice, List.length_take, List.length_drop]

theorem scanStep_entry_value_bound (mem : List Nat) (limit ptr : Nat)
    (key value : List Nat) (vstart : Nat) (pad : Bool) (next : Nat)
    (h : scanStep mem limit ptr = ScanRes.entry key value vstart pad next) :
    vstart + value.length < limit := by
  unfold scanStep at h
  split at h
  case isFalse => cases h
  case isTrue hcond =>
    cases hk : memchr0 mem ptr limit with
    | none => rw [hk] at h; cases h
    | some key_end =>
      rw [hk] at h
      simp only at h
      split at h
      case isTrue => cases h
      case isFalse hvs =>
        cases hv : memchr0 mem (key_end + 1) limit with
        | none => rw [hv] at h; cases h
        | some value_end =>
          rw [hv] at h
          simp only [ScanRes.entry.injEq] at h
          obtain ⟨hkey, hval, hvst, hpad, hnext⟩ := h
          obtain ⟨hs1, hs2, _⟩ := memchr0_sound mem (key_end + 1) limit value_end hv
          have hvl : value.length ≤ value_end - (key_end + 1) := by
            rw [← hval]
            simp [byteSlice, List.length_take, List.length_drop]
          omega

theorem spoofLoop_inPlace_eq (g mem : List Nat) (limit : Nat) :
    ∀ fuel ptr store modified out,
      spoofLoop g mem limit fuel ptr store modified = out →
      ∀ vs cap, out.kind = SpoofKind.inPlace vs cap →
        out.ret = true ∧ vs + cap < limit ∧
        ∃ w, w.length = cap ∧ out.mem = writeAt mem vs w := by
  intro fuel
  induction fuel with
  | zero =>
    intro ptr store modified out heq vs cap hk
    rw [spoofLoop] at heq
    subst heq
    unfold spoofFinish at hk ⊢
    cases modified <;> simp_all
  | succ n ih =>
    intro ptr store modified out heq vs cap hk
    rw [spoofLoop] at heq
    split at heq
    · subst heq
      unfold spoofFinish at hk ⊢
      cases modified <;> simp_all
    · rename_i key value vstart pad next hs
      split at heq
      · split at heq
        · subst heq
          simp only [SpoofKind.inPlace.injEq] at hk
          obtain ⟨hvs, hcap⟩ := hk
          subst hvs
          subst hcap
          rename_i hpad
          refine ⟨rfl, scanStep_entry_value_bound mem limit ptr key value vstart pad next hs,
            _, takePad_length (process_cmd value g) value.length, rfl⟩
        · exact ih next (mapInsert key (process_cmd value g) store) true out heq vs cap hk
      · exact ih next (mapInsert key value store) modified out heq vs cap hk

/-- C6: whenever `SpoofKeyValueStore` takes the in-place path on some value
span of capacity `cap`, its edit stays inside that span (the new bytes have
length exactly `cap`, truncating the sanitized command if necessary), the span
itself lies within the declared store size, every byte outside the span —
i.e. every other entry — is unchanged, the buffer length is unchanged, and
the header's `StoreSize` field is unchanged. -/
theorem spoof_inplace_frame (g : List Nat) (h : OatHeaderModel) (vs cap : Nat)
    (hle : h.kvStoreSize ≤ h.kvStore.length)
    (hk : (SpoofKeyValueStore g h.kvStore h.kvStoreSize).kind = SpoofKind.inPlace vs cap) :
    (applySpoof g h).2 = true ∧
    (applySpoof g h).1.kvStoreSize = h.kvStoreSize ∧
    vs + cap ≤ h.kvStoreSize ∧
    (applySpoof g h).1.kvStore.length = h.kvStore.length ∧
    ∀ i, i < vs ∨ vs + cap ≤ i →
      (applySpoof g h).1.kvStore.getD i 0 = h.kvStore.getD i 0 := by
  obtain ⟨hret, hbound, w, hwlen, hmem⟩ :=
    spoofLoop_inPlace_eq g h.kvStore h.kvStoreSize (h.kvStoreSize + 1) 0 [] false
      (SpoofKeyValueStore g h.kvStore h.kvStoreSize) rfl vs cap hk
  have hfit : vs + w.length ≤ h.kvStore.length := by omega
  refine ⟨hret, rfl, by omega, ?_, ?_⟩
  · show (SpoofKeyValueStore g h.kvStore h.kvStoreSize).mem.length = h.kvStore.length
    rw [hmem]
    exact writeAt_length _ _ _ hfit
  · intro i hi
    show (SpoofKeyValueStore g h.kvStore h.kvStoreSize).mem.getD i 0 = h.kvStore.getD i 0
    rw [hmem]
    exact writeAt_getD_outside _ _ _ hfit i (by omega)

theorem spoof_inplace_frame_witness :
    48 ≤ (memPadded : List Nat).length ∧
    (applySpoof gPathX ⟨memPadded, 48⟩).2 = true ∧
    (applySpoof gPathX ⟨memPadded, 48⟩).1.kvStoreSize = 48 ∧
    (applySpoof gPathX ⟨memPadded, 48⟩).1.kvStore.getD 3 0 = memPadded.getD 3 0 := by
  have h := spoof_inplace_frame gPathX ⟨memPadded, 48⟩ 16 29 (by decide) (by decide)
  exact ⟨by decide, h.1, h.2.1, h.2.2.2.2 3 (by omega)⟩

/-! ## Unfolding equations for the spoof and parse loops -/

theorem spoofFinish_true (mem : List Nat) (store : List (List Nat × List Nat)) :
    spoofFinish mem store true =
      ⟨writeAt mem 0 (WriteKeyValueStore store), true,
        SpoofKind.rebuilt (WriteKeyValueStore store)⟩ := rfl

theorem spoofFinish_false (mem : List Nat) (store : List (List Nat × List Nat)) :
    spoofFinish mem store false = ⟨mem, false, SpoofKind.noChange⟩ := rfl

theorem spoofLoop_zero (g mem : List Nat) (limit ptr : Nat)
    (store : List (List Nat × List Nat)) (modified : Bool) :
    spoofLoop g mem limit 0 ptr store modified = spoofFinish mem store modified := rfl

theorem spoofLoop_succ_stop (g mem : List Nat) (limit n ptr : Nat)
    (store : List (List Nat × List Nat)) (modified : Bool)
    (hs : scanStep mem limit ptr = ScanRes.stop) :
    spoofLoop g mem limit (n + 1) ptr store modified = spoofFinish mem store modified := by
  rw [spoofLoop, hs]

theorem spoofLoop_succ_entry (g mem : List Nat) (limit n ptr : Nat)
    (store : List (List Nat × List Nat)) (modified : Bool)
    (key value : List Nat) (vstart : Nat) (pad : Bool) (next : Nat)
    (hs : scanStep mem limit ptr = ScanRes.entry key value vstart pad next) :
    spoofLoop g mem limit (n + 1) ptr store modified =
      (if key == kDex2OatCmdLineKey && hasSub kParamToRemove value then
        if pad then
          ⟨writeAt mem vstart
              ((process_cmd value g).take value.length ++
                List.replicate (value.length - (process_cmd value g).length) 0),
            true, SpoofKind.inPlace vstart value.length⟩
        else spoofLoop g mem limit n next (mapInsert key (process_cmd value g) store) true
      else spoofLoop g mem limit n next (mapInsert key value store) modified) := by
  rw [spoofLoop, hs]

theorem parseLoop_zero (mem : List Nat) (limit ptr : Nat) :
    parseLoop mem limit 0 ptr = [] := rfl

theorem parseLoop_succ_stop (mem : List Nat) (limit n ptr : Nat)
    (hs : scanStep mem limit ptr = ScanRes.stop) :
    parseLoop mem limit (n + 1) ptr = [] := by
  rw [parseLoop, hs]

theorem parseLoop_succ_entry (mem : List Nat) (limit n ptr : Nat)
    (key value : List Nat) (vstart : Nat) (pad : Bool) (next : Nat)
    (hs : scanStep mem limit ptr = ScanRes.entry key value vstart pad next) :
    parseLoop mem limit (n + 1) ptr = (key, value) :: parseLoop mem limit n next := by
  rw [parseLoop, hs]

/-! ## C7: spoofing is a no-op without the token -/

theorem spoofLoop_no_match (g mem : List Nat) (limit : Nat) :
    ∀ fuel ptr store,
      (∀ p ∈ parseLoop mem limit fuel ptr,
        ¬(p.1 = kDex2OatCmdLineKey ∧ hasSub kParamToRemove p.2 = true)) →
      spoofLoop g mem limit fuel ptr store false = ⟨mem, false, SpoofKind.noChange⟩ := by
  intro fuel
  induction fuel with
  | zero =>
    intro ptr store _
    rw [spoofLoop_zero, spoofFinish_false]
  | succ n ih =>
    intro ptr store hno
    cases hs : scanStep mem limit ptr with
    | stop =>
      rw [spoofLoop_succ_stop g mem limit n ptr store false hs, spoofFinish_false]
    | entry key value vstart pad next =>
      rw [spoofLoop_succ_entry g mem limit n ptr store false key value vstart pad next hs]
      have hcond : (key == kDex2OatCmdLineKey && hasSub kParamToRemove value) = false := by
        cases hb : (key == kDex2OatCmdLineKey && hasSub kParamToRemove value) with
        | false => rfl
        | true =>
          exfalso
          apply hno (key, value)
            (by
              rw [parseLoop_succ_entry mem limit n ptr key value vstart pad next hs]
              exact List.mem_cons_self _ _)
          simp only [Bool.and_eq_true, beq_iff_eq] at hb
          exact hb
      rw [hcond]
      simp only [Bool.false_eq_true, if_false]
      exact ih next (mapInsert key value store) (fun p hp => hno p (by
        rw [parseLoop_succ_entry mem limit n ptr key value vstart pad next hs]
        exact List.mem_cons_of_mem _ hp))

/-- C7: when no parsed entry has both the target key `dex2oat-cmdline` and the
injected token inside its value (in particular after a previous successful
spoof removed the token), `SpoofKeyValueStore` modifies no byte and returns
false, so spoofing is idempotent. -/
theorem spoof_noop_token_absent (g mem : List Nat) (limit : Nat)
    (hno : ∀ p ∈ parseEntries mem limit,
      ¬(p.1 = kDex2OatCmdLineKey ∧ hasSub kParamToRemove p.2 = true)) :
    SpoofKeyValueStore g mem limit = ⟨mem, false, SpoofKind.noChange⟩ :=
  spoofLoop_no_match g mem limit (limit + 1) 0 [] hno

theorem spoof_noop_token_absent_witness :
    SpoofKeyValueStore gPathX memPlain 12 = ⟨memPlain, false, SpoofKind.noChange⟩ :=
  spoof_noop_token_absent gPathX memPlain 12 (by decide)

/-! ## C1: characterization of the rebuild path -/

theorem spoofLoop_rebuilt_eq (g mem : List Nat) (limit : Nat) :
    ∀ fuel ptr store modified out,
      spoofLoop g mem limit fuel ptr store modified = out →
      ∀ serial, out.kind = SpoofKind.rebuilt serial →
        out.ret = true ∧
        serial = WriteKeyValueStore
          ((parseLoop mem limit fuel ptr).foldl
            (fun st p => mapInsert p.1 (transformEntry g p.1 p.2) st) store) ∧
        out.mem = writeAt mem 0 serial := by
  intro fuel
  induction fuel with
  | zero =>
    intro ptr store modified out heq serial hk
    rw [spoofLoop_zero] at heq
    subst heq
    cases modified with
    | false =>
      rw [spoofFinish_false] at hk
      simp at hk
    | true =>
      rw [spoofFinish_true] at hk
      simp only [SpoofKind.rebuilt.injEq] at hk
      subst hk
      rw [spoofFinish_true, parseLoop_zero]
      exact ⟨rfl, rfl, rfl⟩
  | succ n ih =>
    intro ptr store modified out heq serial hk
    cases hs : scanStep mem limit ptr with
    | stop =>
      rw [spoofLoop_succ_stop g mem limit n ptr store modified hs] at heq
      subst heq
      cases modified with
      | false =>
        rw [spoofFinish_false] at hk
        simp at hk
      | true =>
        rw [spoofFinish_true] at hk
        simp only [SpoofKind.rebuilt.injEq] at hk
        subst hk
        rw [spoofFinish_true, parseLoop_succ_stop mem limit n ptr hs]
        exact ⟨rfl, rfl, rfl⟩
    | entry key value vstart pad next =>
      rw [spoofLoop_succ_entry g mem limit n ptr store modified key value vstart pad next hs]
        at heq
      by_cases htgt : (key == kDex2OatCmdLineKey && hasSub kParamToRemove value) = true
      · rw [if_pos htgt] at heq
        cases pad with
        | true =>
          rw [if_pos rfl] at heq
          subst heq
          simp at hk
        | false =>
          rw [if_neg (by simp)] at heq
          obtain ⟨hret, hser, hmem⟩ :=
            ih next (mapInsert key (process_cmd value g) store) true out heq serial hk
          refine ⟨hret, ?_, hmem⟩
          rw [hser, parseLoop_succ_entry mem limit n ptr key value vstart false next hs]
          simp only [List.foldl_cons]
          unfold transformEntry
          rw [if_pos htgt]
      · rw [if_neg htgt] at heq
        obtain ⟨hret, hser, hmem⟩ :=
          ih next (mapInsert key value store) modified out heq serial hk
        refine ⟨hret, ?_, hmem⟩
        rw [hser, parseLoop_succ_entry mem limit n ptr key value vstart pad next hs]
        simp only [List.foldl_cons]
        unfold transformEntry
        rw [if_neg htgt]

/-- C1 (amended): whenever `SpoofKeyValueStore` takes the rebuild path, the
bytes written at the buffer base are the serialization, in `std::map`
key-sorted order, of all parsed entries with the target entry's value
sanitized by `process_cmd` (first token replaced and the injected token
removed) — not a plain concatenation of the original entries — and the
header's `StoreSize` field is left unchanged: the engine never calls the
`setKeyValueStoreSize` accessor, so no reduction by the removed token's
length happens. -/
theorem spoof_rebuild_sorted_serialization (g : List Nat) (h : OatHeaderModel)
    (serial : List Nat)
    (hk : (SpoofKeyValueStore g h.kvStore h.kvStoreSize).kind = SpoofKind.rebuilt serial) :
    (applySpoof g h).2 = true ∧
    (applySpoof g h).1.kvStoreSize = h.kvStoreSize ∧
    serial = WriteKeyValueStore (rebuildStore g h.kvStore h.kvStoreSize) ∧
    (applySpoof g h).1.kvStore = serial ++ h.kvStore.drop serial.length := by
  obtain ⟨hret, hser, hmem⟩ :=
    spoofLoop_rebuilt_eq g h.kvStore h.kvStoreSize (h.kvStoreSize + 1) 0 [] false
      (SpoofKeyValueStore g h.kvStore h.kvStoreSize) rfl serial hk
  refine ⟨hret, rfl, hser, ?_⟩
  show (SpoofKeyValueStore g h.kvStore h.kvStoreSize).mem = _
  rw [hmem]
  unfold writeAt
  simp

theorem spoof_rebuild_sorted_serialization_witness :
    (applySpoof gPathX ⟨memRebuildOne, 44⟩).2 = true ∧
    (applySpoof gPathX ⟨memRebuildOne, 44⟩).1.kvStoreSize = 44 ∧
    serialRebuildOne = WriteKeyValueStore (rebuildStore gPathX memRebuildOne 44) := by
  have h := spoof_rebuild_sorted_serialization gPathX ⟨memRebuildOne, 44⟩ serialRebuildOne
    (by decide)
  exact ⟨h.1, h.2.1, h.2.2.1⟩

/-! ## Serialization round-trip (C8) -/

theorem WKV_cons (k v : List Nat) (rest : List (List Nat × List Nat)) :
    WriteKeyValueStore ((k, v) :: rest) = k ++ 0 :: v ++ 0 :: WriteKeyValueStore rest := rfl

theorem WKV_length_ge (m : List (List Nat × List Nat)) :
    m.length ≤ (WriteKeyValueStore m).length := by
  induction m with
  | nil => simp
  | cons p rest ih =>
    obtain ⟨k, v⟩ := p
    rw [WKV_cons]
    simp only [List.length_append, List.length_cons, List.length_cons]
    omega

theorem scanStep_eq_entry (mem : List Nat) (limit ptr key_end value_end : Nat)
    (h1 : ptr < limit) (h2 : memGetD mem ptr ≠ 0)
    (h3 : memchr0 mem ptr limit = some key_end)
    (h4 : key_end + 1 < limit)
    (h5 : memchr0 mem (key_end + 1) limit = some value_end)
    (hpf : (decide (value_end + 1 < limit) && (memGetD mem (value_end + 1) == 0)
      && IsNonDeterministic (byteSlice mem ptr key_end)) = false) :
    scanStep mem limit ptr =
      ScanRes.entry (byteSlice mem ptr key_end) (byteSlice mem (key_end + 1) value_end)
        (key_end + 1) false (value_end + 1) := by
  unfold scanStep
  rw [if_pos (And.intro h1 h2)]
  simp only [h3, h5]
  rw [if_neg (by omega)]
  rw [hpf]
  rfl

theorem parseLoop_serialized (mem : List Nat) :
    ∀ (m : List (List Nat × List Nat)) (pre junk : List Nat) (fuel : Nat),
      mem = pre ++ (WriteKeyValueStore m ++ junk) →
      m.length < fuel →
      WFStore m →
      parseLoop mem (pre.length + (WriteKeyValueStore m).length) fuel pre.length = m := by
  intro m
  induction m with
  | nil =>
    intro pre junk fuel hmem hfuel _
    cases fuel with
    | zero => omega
    | succ n =>
      apply parseLoop_succ_stop
      unfold scanStep
      rw [if_neg (by
        intro hcon
        obtain ⟨hlt, _⟩ := hcon
        have h0 : (WriteKeyValueStore ([] : List (List Nat × List Nat))).length = 0 := rfl
        omega)]
  | cons p t ih =>
    obtain ⟨k, v⟩ := p
    intro pre junk fuel hmem hfuel hwf
    obtain ⟨hknil, h0k, h0v⟩ := hwf (k, v) (List.mem_cons_self _ _)
    have hkpos : 0 < k.length := List.length_pos.mpr hknil
    have hwt : WFStore t := fun q hq => hwf q (List.mem_cons_of_mem _ hq)
    cases fuel with
    | zero => omega
    | succ n =>
      have hW : WriteKeyValueStore ((k, v) :: t) ++ junk =
          k ++ (0 :: (v ++ (0 :: (WriteKeyValueStore t ++ junk)))) := by
        rw [WKV_cons]
        simp
      have hlen : (WriteKeyValueStore ((k, v) :: t)).length =
          k.length + 1 + v.length + 1 + (WriteKeyValueStore t).length := by
        rw [WKV_cons]
        simp only [List.length_append, List.length_cons]
        omega
      have hbyte : ∀ j, memGetD mem (pre.length + j) =
          memGetD (k ++ (0 :: (v ++ (0 :: (WriteKeyValueStore t ++ junk))))) j := by
        intro j
        rw [hmem, hW.symm] at *
        rw [hmem]
        rw [hW]
        exact memGetD_prefix pre _ j
      have hbk : ∀ j, j < k.length → memGetD mem (pre.length + j) ≠ 0 := by
        intro j hj
        rw [hbyte j]
        unfold memGetD
        rw [getD_append_left _ _ _ hj]
        exact getD_mem_ne_zero k j hj h0k
      have hbk0 : memGetD mem (pre.length + k.length) = 0 := by
        rw [hbyte k.length]
        unfold memGetD
        rw [getD_append_right _ _ _ (Nat.le_refl _)]
        simp
      have hbv : ∀ j, j < v.length →
          memGetD mem (pre.length + k.length + 1 + j) ≠ 0 := by
        intro j hj
        have e : pre.length + k.length + 1 + j = pre.length + (k.length + (j + 1)) := by omega
        rw [e, hbyte _]
        unfold memGetD
        rw [getD_append_right _ _ _ (by omega)]
        have e2 : k.length + (j + 1) - k.length = j + 1 := by omega
        rw [e2]
        simp only [List.getD_cons_succ]
        rw [getD_append_left _ _ _ hj]
        exact getD_mem_ne_zero v j hj h0v
      have hbv0 : memGetD mem (pre.length + k.length + 1 + v.length) = 0 := by
        have e : pre.length + k.length + 1 + v.length =
            pre.length + (k.length + (v.length + 1)) := by omega
        rw [e, hbyte _]
        unfold memGetD
        rw [getD_append_right _ _ _ (by omega)]
        have e2 : k.length + (v.length + 1) - k.length = v.length + 1 := by omega
        rw [e2]
        simp only [List.getD_cons_succ]
        rw [getD_append_right _ _ _ (Nat.le_refl _)]
        simp
      have hkey : memchr0 mem pre.length
          (pre.length + (WriteKeyValueStore ((k, v) :: t)).length) =
          some (pre.length + k.length) := by
        apply memchr0_first
        · omega
        · exact hbk0
        · exact hbk
      have hval : memchr0 mem (pre.length + k.length + 1)
          (pre.length + (WriteKeyValueStore ((k, v) :: t)).length) =
          some (pre.length + k.length + 1 + v.length) := by
        apply memchr0_first
        · omega
        · exact hbv0
        · exact hbv
      have hslk : byteSlice mem pre.length (pre.length + k.length) = k := by
        unfold byteSlice
        rw [hmem, List.drop_left]
        have e : pre.length + k.length - pre.length = k.length := by omega
        rw [e, hW]
        exact List.take_left _ _
      have hmem2 : mem = (pre ++ k ++ [0]) ++ (v ++ (0 :: (WriteKeyValueStore t ++ junk))) := by
        rw [hmem, hW]
        simp
      have hslv : byteSlice mem (pre.length + k.length + 1)
          (pre.length + k.length + 1 + v.length) = v := by
        unfold byteSlice
        have e : pre.length + k.length + 1 + v.length - (pre.length + k.length + 1) =
            v.length := by omega
        rw [e, hmem2]
        have hl3 : (pre ++ k ++ [0]).length = pre.length + k.length + 1 := by
          simp only [List.length_append, List.length_cons, List.length_nil]
        rw [← hl3, List.drop_left]
        exact List.take_left _ _
      have hpadf : (decide (pre.length + k.length + 1 + v.length + 1 <
            pre.length + (WriteKeyValueStore ((k, v) :: t)).length) &&
          (memGetD mem (pre.length + k.length + 1 + v.length + 1) == 0) &&
          IsNonDeterministic k) = false := by
        cases t with
        | nil =>
          have hdec : decide (pre.length + k.length + 1 + v.length + 1 <
              pre.length + (WriteKeyValueStore ((k, v) :: ([] : List (List Nat × List Nat)))).length)
              = false := by
            have h0 : (WriteKeyValueStore ([] : List (List Nat × List Nat))).length = 0 := rfl
            simp only [decide_eq_false_iff_not]
            omega
          rw [hdec]
          simp
        | cons q t' =>
          obtain ⟨k', v'⟩ := q
          obtain ⟨hk'nil, h0k', _⟩ := hwt (k', v') (List.mem_cons_self _ _)
          have hk'pos : 0 < k'.length := List.length_pos.mpr hk'nil
          have hb : memGetD mem (pre.length + k.length + 1 + v.length + 1) ≠ 0 := by
            have e : pre.length + k.length + 1 + v.length + 1 =
                pre.length + (k.length + (v.length + 2)) := by omega
            rw [e, hbyte _]
            unfold memGetD
            rw [getD_append_right _ _ _ (by omega)]
            have e2 : k.length + (v.length + 2) - k.length = v.length + 1 + 1 := by omega
            rw [e2]
            simp only [List.getD_cons_succ]
            rw [getD_append_right _ _ _ (by omega)]
            have e3 : v.length + 1 - v.length = 1 := by omega
            rw [e3]
            simp only [List.getD_cons_succ]
            rw [show WriteKeyValueStore ((k', v') :: t') ++ junk =
                k' ++ (0 :: (v' ++ (0 :: (WriteKeyValueStore t' ++ junk)))) from by
              rw [WKV_cons]
              simp]
            rw [getD_append_left _ _ _ hk'pos]
            exact getD_mem_ne_zero k' 0 hk'pos h0k'
          have hbeq : (memGetD mem (pre.length + k.length + 1 + v.length + 1) == 0) = false := by
            simpa using hb
          rw [hbeq]
          simp
      have hscan : scanStep mem (pre.length + (WriteKeyValueStore ((k, v) :: t)).length)
          pre.length =
          ScanRes.entry k v (pre.length + k.length + 1) false
            (pre.length + k.length + 1 + v.length + 1) := by
        have h := scanStep_eq_entry mem
          (pre.length + (WriteKeyValueStore ((k, v) :: t)).length) pre.length
          (pre.length + k.length) (pre.length + k.length + 1 + v.length)
          (by omega)
          (by
            have := hbk 0 hkpos
            simpa using this)
          hkey (by omega) hval (by rw [hslk]; exact hpadf)
        rw [h, hslk, hslv]
      rw [parseLoop_succ_entry mem _ n pre.length k v (pre.length + k.length + 1) false
        (pre.length + k.length + 1 + v.length + 1) hscan]
      congr 1
      have hmem3 : mem = (pre ++ (k ++ (0 :: (v ++ [0])))) ++
          (WriteKeyValueStore t ++ junk) := by
        rw [hmem, hW]
        simp
      have hlen4 : (pre ++ (k ++ (0 :: (v ++ [0])))).length =
          pre.length + k.length + 1 + v.length + 1 := by
        simp only [List.length_append, List.length_cons, List.length_nil]
        omega
      have hlim2 : pre.length + (WriteKeyValueStore ((k, v) :: t)).length =
          (pre ++ (k ++ (0 :: (v ++ [0])))).length + (WriteKeyValueStore t).length := by
        rw [hlen4, hlen]
        omega
      rw [show pre.length + k.length + 1 + v.length + 1 =
        (pre ++ (k ++ (0 :: (v ++ [0])))).length from hlen4.symm]
      rw [hlim2]
      exact ih (pre ++ (k ++ (0 :: (v ++ [0])))) junk n hmem3
        (by simp only [List.length_cons] at hfuel; omega) hwt

/-- C8 (amended): after a rebuild, re-parsing the buffer with the rebuilt
serialization's own byte length (NOT the stale original `StoreSize`, which the
code never updates) recovers exactly the rebuilt key-sorted mapping — the
original entries with the target value sanitized, no entry lost, none added.
Re-parsing with the stale `StoreSize` can instead see spurious or lost
entries (see the counterexample). -/
theorem spoof_roundtrip_rebuilt (g mem : List Nat) (limit : Nat) (serial : List Nat)
    (hk : (SpoofKeyValueStore g mem limit).kind = SpoofKind.rebuilt serial)
    (hwf : WFStore (rebuildStore g mem limit)) :
    parseEntries (SpoofKeyValueStore g mem limit).mem serial.length =
      rebuildStore g mem limit := by
  obtain ⟨hret, hser, hmem⟩ :=
    spoofLoop_rebuilt_eq g mem limit (limit + 1) 0 [] false (SpoofKeyValueStore g mem limit)
      rfl serial hk
  have hser' : serial = WriteKeyValueStore (rebuildStore g mem limit) := hser
  unfold parseEntries
  rw [hmem]
  unfold writeAt
  simp only [List.take_zero, List.nil_append, Nat.zero_add]
  rw [hser']
  have hlen : ((WriteKeyValueStore (rebuildStore g mem limit)) : List Nat).length + 1 >
      (rebuildStore g mem limit).length := by
    have := WKV_length_ge (rebuildStore g mem limit)
    omega
  have h := parseLoop_serialized
    (WriteKeyValueStore (rebuildStore g mem limit) ++
      mem.drop (0 + (WriteKeyValueStore (rebuildStore g mem limit)).length))
    (rebuildStore g mem limit) []
    (mem.drop (0 + (WriteKeyValueStore (rebuildStore g mem limit)).length))
    ((WriteKeyValueStore (rebuildStore g mem limit)).length + 1)
    (by simp) hlen hwf
  simpa using h

theorem spoof_roundtrip_rebuilt_witness :
    parseEntries (SpoofKeyValueStore gPathX memRoundTrip 48).mem serialRoundTrip.length =
      rebuildStore gPathX memRoundTrip 48 :=
  spoof_roundtrip_rebuilt gPathX memRoundTrip 48 serialRoundTrip (by decide)
    (by unfold WFStore; decide)

/-- C8: on a concrete two-entry record whose rebuild shrinks it, re-parsing
the rewritten buffer with the SAME stale `StoreSize` (48) yields a spurious
entry assembled from stale tail bytes — key `"ine-max-code-units=0"`, a key
that never existed in the pre-edit record — refuting the claimed round-trip at
the original `StoreSize`. -/
theorem spoof_reparse_stale_size_spurious :
    (strBytes "ine-max-code-units=0", strBytes "z") ∈
      parseEntries (SpoofKeyValueStore gPathX memRoundTrip 48).mem 48 ∧
    ¬ (strBytes "ine-max-code-units=0") ∈ (parseEntries memRoundTrip 48).map Prod.fst := by
  decide
